import Mathlib

/-!
Verification of the flowpilot `Stash` (backend/flowpilot/stash.go): a history
log and a scheduled-state queue stored in a JSON document managed through the
`jsonmanager` document store.

The document store itself (`jsonmanager`, built on gjson/sjson paths) is an
external collaborator of the stash; its behaviour, where it decides an
outcome, is modelled from the specification (typed get, set, delete with
append/negative indices, serialization to a string).  The five stash
operations are translated directly from `stash.go`.
-/

/-- `StateName` is an opaque string-valued identifier of a flow state. -/
abbrev StateName := String

/-- A JSON field value as observed by the stash code.  The write paths of
`stash.go` only ever store string fields (`s`, `u`) and integer fields (`n`),
so field values are strings or 64-bit integers (modelled as `Int`). -/
inductive JField where
  | fstr (s : String)
  | fint (n : Int)
deriving DecidableEq, Repr

/-- A JSON value sitting in the `_.state_history` array.  Entries written by
`addStateToHistory` are objects with fields `s`, optionally `n`, optionally
`u`; a corrupted document may hold a non-object value or an object missing
the `s` field, which is what `getLastStateFromHistory` checks for. -/
inductive JVal where
  | vstr (s : String)
  | vint (n : Int)
  | vobj (fields : List (String × JField))
deriving DecidableEq, Repr

/-- Field lookup in an object field list (first match wins). -/
def findField : List (String × JField) → String → Option JField
  | [], _ => none
  | (k, v) :: rest, name => if k = name then some v else findField rest name

/-- Modelled from the spec: typed get on the document store.  `Get(name)` on a
JSON value yields the field when the value is an object having it, and a
non-existent result otherwise. -/
def JVal.get : JVal → String → Option JField
  | .vobj fields, name => findField fields name
  | _, _ => none

/-- `IsObject()` of the document store on a JSON value. -/
def JVal.isObject : JVal → Bool
  | .vobj _ => true
  | _ => false

/-- Modelled from the spec: the string coercion of a typed get (`.String()`):
a string field reads back as itself, an integer field as its decimal form. -/
def JField.asString : JField → String
  | .fstr s => s
  | .fint n => toString n

/-- Modelled from the spec: the integer coercion of a typed get (`.Int()`):
an integer field reads back as itself; other field shapes are never read
numerically by the stash write paths and coerce to 0. -/
def JField.asInt : JField → Int
  | .fint n => n
  | .fstr _ => 0

/-- The reserved region of the stash document: the `_.state_history` array
and the `_.scheduled_states` array.  Both read as empty when absent, so the
absent and empty states are identified. -/
structure Doc where
  history : List JVal
  scheduled : List StateName
deriving DecidableEq, Repr

/-- `NewStash` creates a stash over an empty document. -/
def NewStash : Doc := { history := [], scheduled := [] }

/-- The error outcomes of the stash operations, one constructor per distinct
error produced in `stash.go`. -/
inductive StashError where
  /-- "last history item is not an object" -/
  | notAnObject
  /-- "last history item is missing a value for 'state'" -/
  | missingStateField
  /-- "failed to update stashed history": the document write in
  `addStateToHistory` failed. -/
  | setStateHistoryFailed
  /-- "failed to set scheduled_states": the document write in
  `addScheduledStates` failed. -/
  | setScheduledStatesFailed
  /-- "failed to stash scheduled states while ending the sub-flow": the
  document write in `removeLastScheduledState` failed. -/
  | stashScheduledStatesFailed
  /-- the document delete in `removeLastStateFromHistory` failed. -/
  | deleteStateHistoryFailed
deriving DecidableEq, Repr

/-- The history item built by `addStateToHistory`: field `s` always, field
`n` only when provided and strictly positive, field `u` only when provided
(in the order the source sets them). -/
def mkItem (stateName : StateName) (unscheduledStateName : Option StateName)
    (numOfScheduledStates : Option Int) : JVal :=
  .vobj ([("s", .fstr stateName)]
    ++ (match numOfScheduledStates with
        | some k => if 0 < k then [("n", .fint k)] else []
        | none => [])
    ++ (match unscheduledStateName with
        | some u => [("u", .fstr u)]
        | none => []))

/-- The scheduled-count annotation that survives a write/readback cycle:
`addStateToHistory` stores `n` only when provided and strictly positive. -/
def cleanCount : Option Int → Option Int
  | some k => if 0 < k then some k else none
  | none => none

/-- The state recorded by a history entry, when present: the `s` field read
through the string coercion. -/
def stateOf (item : JVal) : Option StateName :=
  (item.get "s").map JField.asString

/-- `getLastStateFromHistory` (stash.go:92-134): reads the tail history
entry.  An empty history yields all-nil with no error; a tail entry that is
not an object or lacks the `s` field is a malformed-history error; otherwise
the `s`, `u` and `n` fields are decoded and returned. -/
def getLastStateFromHistory (d : Doc) :
    Except StashError (Option (StateName × Option StateName × Option Int)) :=
  match d.history.getLast? with
  | none => .ok none
  | some lastHistoryItem =>
    if lastHistoryItem.isObject then
      match lastHistoryItem.get "s" with
      | none => .error .missingStateField
      | some sv =>
        .ok (some (sv.asString,
          (lastHistoryItem.get "u").map JField.asString,
          (lastHistoryItem.get "n").map JField.asInt))
    else
      .error .notAnObject

/-- `addStateToHistory` (stash.go:38-78).  Reads the last state; propagates
its error; if the last state equals the new one, silently does nothing;
otherwise appends `mkItem` to the history with a single document write.  The
boolean `failSet` says whether that underlying write fails (jsonmanager is
external; the local `historyItem` writes of plain strings and integers
cannot fail). -/
def addStateToHistory (failSet : Bool) (d : Doc) (stateName : StateName)
    (unscheduledStateName : Option StateName) (numOfScheduledStates : Option Int) :
    Except StashError Unit × Doc :=
  match getLastStateFromHistory d with
  | .error e => (.error e, d)
  | .ok lastState =>
    match lastState with
    | some (lastStateName, _, _) =>
      if lastStateName = stateName then
        (.ok (), d)
      else if failSet then
        (.error .setStateHistoryFailed, d)
      else
        (.ok (), { d with history :=
          d.history ++ [mkItem stateName unscheduledStateName numOfScheduledStates] })
    | none =>
      if failSet then
        (.error .setStateHistoryFailed, d)
      else
        (.ok (), { d with history :=
          d.history ++ [mkItem stateName unscheduledStateName numOfScheduledStates] })

/-- `removeLastStateFromHistory` (stash.go:81-87): deletes the tail history
entry with a single document delete.  Modelled from the spec: deleting from
an already-empty history is a no-op success (delete on a missing path does
not touch the document and reports no error). -/
def removeLastStateFromHistory (failDelete : Bool) (d : Doc) :
    Except StashError Unit × Doc :=
  match d.history with
  | [] => (.ok (), d)
  | _ :: _ =>
    if failDelete then
      (.error .deleteStateHistoryFailed, d)
    else
      (.ok (), { d with history := d.history.dropLast })

/-- `addScheduledStates` (stash.go:137-155): prepends the given names, in
order, to the existing queue with a single document write. -/
def addScheduledStates (failSet : Bool) (d : Doc) (scheduledStateNames : List StateName) :
    Except StashError Unit × Doc :=
  if failSet then
    (.error .setScheduledStatesFailed, d)
  else
    (.ok (), { d with scheduled := scheduledStateNames ++ d.scheduled })

/-- `removeLastScheduledState` (stash.go:158-182): on an empty queue returns
nil with no error and performs no write; otherwise removes the head, returns
it, and writes back the remainder with a single document write. -/
def removeLastScheduledState (failSet : Bool) (d : Doc) :
    Except StashError (Option StateName) × Doc :=
  match d.scheduled with
  | [] => (.ok none, d)
  | nextStateName :: rest =>
    if failSet then
      (.error .stashScheduledStatesFailed, d)
    else
      (.ok (some nextStateName), { d with scheduled := rest })

/-- Whether a call `addStateToHistory(_, stateName, ...)` on document `d`
appends a new entry (rather than erroring on a malformed tail or silently
skipping a repeated state). -/
def willAppendB (d : Doc) (stateName : StateName) : Bool :=
  match getLastStateFromHistory d with
  | .ok none => true
  | .ok (some (lastStateName, _, _)) => lastStateName ≠ stateName
  | .error _ => false

/-- The mutating operations of the stash, for statements quantifying over
every operation or every sequence of mutations. -/
inductive Op where
  | addHist (stateName : StateName) (u : Option StateName) (n : Option Int)
  | removeHist
  | addSched (names : List StateName)
  | removeSched
deriving DecidableEq, Repr

/-- Apply one operation, with `fail` saying whether its underlying document
write (if it performs one) fails. -/
def applyOp (fail : Bool) (op : Op) (d : Doc) : Doc :=
  match op with
  | .addHist s u n => (addStateToHistory fail d s u n).2
  | .removeHist => (removeLastStateFromHistory fail d).2
  | .addSched names => (addScheduledStates fail d names).2
  | .removeSched => (removeLastScheduledState fail d).2

/-- Apply a sequence of successful mutations to a document. -/
def applyOps (ops : List Op) (d : Doc) : Doc :=
  ops.foldl (fun acc op => applyOp false op acc) d

/-- Drain the queue by repeated `removeLastScheduledState`, collecting the
returned names until it reports an empty queue. -/
def drainQueue (d : Doc) : List StateName :=
  go d.scheduled.length d
where
  go : Nat → Doc → List StateName
    | 0, _ => []
    | fuel + 1, d =>
      match removeLastScheduledState false d with
      | (.ok (some s), d2) => s :: go fuel d2
      | _ => []

/-- The history invariant: no two adjacent entries record the same state. -/
def historyInvariant (d : Doc) : Prop :=
  List.Chain' (fun a b => stateOf a ≠ stateOf b) d.history

instance (d : Doc) : Decidable (historyInvariant d) := by
  unfold historyInvariant
  infer_instance

/-!
Serialization.  The document store serializes the whole stash to a single
transportable string and `NewStashFromString` reconstructs a stash from such
a string, failing on a string that is not a well-formed document.  The store
is external, so the encoding is modelled from the spec; what matters for the
stash contract is that deserialization inverts serialization.  The modelled
encoding is a simple self-delimiting one over the reserved region.
-/

/-- Unary encoding of a natural number: `n` ones followed by a zero. -/
def encNat : Nat → List Char
  | 0 => ['0']
  | n + 1 => '1' :: encNat n

/-- Decoder for `encNat`; returns the value and the remaining input. -/
def decNat : List Char → Option (Nat × List Char)
  | '0' :: rest => some (0, rest)
  | '1' :: rest =>
    match decNat rest with
    | some (n, r) => some (n + 1, r)
    | none => none
  | _ => none

/-- Length-prefixed encoding of a string. -/
def encStr (s : String) : List Char := encNat s.data.length ++ s.data

/-- Decoder for `encStr`. -/
def decStr (l : List Char) : Option (String × List Char) :=
  match decNat l with
  | some (n, r) =>
    if n ≤ r.length then some (String.mk (r.take n), r.drop n) else none
  | none => none

/-- Sign-then-magnitude encoding of an integer. -/
def encInt (i : Int) : List Char :=
  if 0 ≤ i then '+' :: encNat i.toNat else '-' :: encNat (-i).toNat

/-- Decoder for `encInt`. -/
def decInt (l : List Char) : Option (Int × List Char) :=
  match l with
  | '+' :: rest => (decNat rest).map (fun p => ((p.1 : Int), p.2))
  | '-' :: rest => (decNat rest).map (fun p => (-(p.1 : Int), p.2))
  | _ => none

/-- Tagged encoding of a JSON field value. -/
def encField : JField → List Char
  | .fstr s => 'S' :: encStr s
  | .fint n => 'I' :: encInt n

/-- Decoder for `encField`. -/
def decField (l : List Char) : Option (JField × List Char) :=
  match l with
  | 'S' :: rest => (decStr rest).map (fun p => (JField.fstr p.1, p.2))
  | 'I' :: rest => (decInt rest).map (fun p => (JField.fint p.1, p.2))
  | _ => none

/-- Encoding of a named field of an object. -/
def encPair (p : String × JField) : List Char := encStr p.1 ++ encField p.2

/-- Decoder for `encPair`. -/
def decPair (l : List Char) : Option ((String × JField) × List Char) :=
  match decStr l with
  | some (k, r) =>
    match decField r with
    | some (v, r2) => some ((k, v), r2)
    | none => none
  | none => none

/-- Count-prefixed encoding of a list given an element encoder. -/
def encList (enc : α → List Char) (l : List α) : List Char :=
  encNat l.length ++ l.foldr (fun a acc => enc a ++ acc) []

/-- Decode exactly `n` elements with the given element decoder. -/
def decListAux (dec : List Char → Option (α × List Char)) :
    Nat → List Char → Option (List α × List Char)
  | 0, r => some ([], r)
  | n + 1, r =>
    match dec r with
    | some (a, r2) =>
      match decListAux dec n r2 with
      | some (l, r3) => some (a :: l, r3)
      | none => none
    | none => none

/-- Decoder for `encList`. -/
def decList (dec : List Char → Option (α × List Char)) (l : List Char) :
    Option (List α × List Char) :=
  match decNat l with
  | some (n, r) => decListAux dec n r
  | none => none

/-- Tagged encoding of a JSON value. -/
def encJVal : JVal → List Char
  | .vstr s => 'v' :: encStr s
  | .vint n => 'w' :: encInt n
  | .vobj fields => 'o' :: encList encPair fields

/-- Decoder for `encJVal`. -/
def decJVal (l : List Char) : Option (JVal × List Char) :=
  match l with
  | 'v' :: rest => (decStr rest).map (fun p => (JVal.vstr p.1, p.2))
  | 'w' :: rest => (decInt rest).map (fun p => (JVal.vint p.1, p.2))
  | 'o' :: rest => (decList decPair rest).map (fun p => (JVal.vobj p.1, p.2))
  | _ => none

/-- Encoding of the reserved region of the document. -/
def encDoc (d : Doc) : List Char :=
  encList encJVal d.history ++ encList encStr d.scheduled

/-- Decoder for `encDoc`. -/
def decDoc (l : List Char) : Option (Doc × List Char) :=
  match decList decJVal l with
  | some (h, r) =>
    match decList decStr r with
    | some (q, r2) => some ({ history := h, scheduled := q }, r2)
    | none => none
  | none => none

/-- Modelled from the spec: serialization of the stash document to a single
transportable string (`jsonmanager` `String()`). -/
def stashToString (d : Doc) : String := String.mk (encDoc d)

/-- `NewStashFromString` (stash.go:31-34), with the document store
deserialization modelled from the spec: reconstructs a stash from a
serialized string, failing (`none`) if the string is not a well-formed
document. -/
def NewStashFromString (s : String) : Option Doc :=
  match decDoc s.data with
  | some (d, []) => some d
  | _ => none

/-!
Round-trip lemmas for the modelled serialization.
-/

theorem decNat_encNat (n : Nat) (r : List Char) : decNat (encNat n ++ r) = some (n, r) := by
  induction n with
  | zero => rfl
  | succ k ih => simp [encNat, decNat, ih]

theorem decStr_encStr (s : String) (r : List Char) : decStr (encStr s ++ r) = some (s, r) := by
  obtain ⟨data⟩ := s
  simp only [encStr, decStr, List.append_assoc, decNat_encNat]
  rw [if_pos (by simp)]
  rw [List.take_left, List.drop_left]

theorem decInt_encInt (i : Int) (r : List Char) : decInt (encInt i ++ r) = some (i, r) := by
  by_cases h : 0 ≤ i
  · rw [encInt, if_pos h]
    simp [decInt, decNat_encNat, Int.toNat_of_nonneg h]
  · rw [encInt, if_neg h]
    simp [decInt, decNat_encNat]
    omega

theorem decField_encField (f : JField) (r : List Char) :
    decField (encField f ++ r) = some (f, r) := by
  cases f with
  | fstr s => simp [encField, decField, decStr_encStr]
  | fint n => simp [encField, decField, decInt_encInt]

theorem decPair_encPair (p : String × JField) (r : List Char) :
    decPair (encPair p ++ r) = some (p, r) := by
  obtain ⟨k, v⟩ := p
  simp [encPair, decPair, List.append_assoc, decStr_encStr, decField_encField]

theorem decListAux_foldr (dec : List Char → Option (α × List Char)) (enc : α → List Char)
    (H : ∀ a r, dec (enc a ++ r) = some (a, r)) (l : List α) (r : List Char) :
    decListAux dec l.length (l.foldr (fun a acc => enc a ++ acc) [] ++ r) = some (l, r) := by
  induction l with
  | nil => rfl
  | cons a t ih => simp [decListAux, List.append_assoc, H, ih]

theorem decList_encList (dec : List Char → Option (α × List Char)) (enc : α → List Char)
    (H : ∀ a r, dec (enc a ++ r) = some (a, r)) (l : List α) (r : List Char) :
    decList dec (encList enc l ++ r) = some (l, r) := by
  simp [encList, decList, List.append_assoc, decNat_encNat, decListAux_foldr dec enc H]

theorem decJVal_encJVal (v : JVal) (r : List Char) : decJVal (encJVal v ++ r) = some (v, r) := by
  cases v with
  | vstr s => simp [encJVal, decJVal, decStr_encStr]
  | vint n => simp [encJVal, decJVal, decInt_encInt]
  | vobj fields =>
    simp [encJVal, decJVal, decList_encList decPair encPair decPair_encPair]

theorem decDoc_encDoc (d : Doc) (r : List Char) : decDoc (encDoc d ++ r) = some (d, r) := by
  simp [encDoc, decDoc, List.append_assoc,
    decList_encList decJVal encJVal decJVal_encJVal,
    decList_encList decStr encStr decStr_encStr]

theorem newStashFromString_stashToString (d : Doc) :
    NewStashFromString (stashToString d) = some d := by
  have h := decDoc_encDoc d []
  rw [List.append_nil] at h
  show (match decDoc (encDoc d) with
    | some (d2, []) => some d2
    | _ => none) = some d
  rw [h]

/-!
Helper lemmas about history items and the history reader.
-/

theorem mkItem_isObject (s : StateName) (u : Option StateName) (n : Option Int) :
    (mkItem s u n).isObject = true := rfl

theorem mkItem_get_s (s : StateName) (u : Option StateName) (n : Option Int) :
    (mkItem s u n).get "s" = some (.fstr s) := by
  cases u <;> cases n <;> simp [mkItem, JVal.get, findField]

theorem mkItem_get_u (s : StateName) (u : Option StateName) (n : Option Int) :
    (mkItem s u n).get "u" = u.map .fstr := by
  cases u <;> cases n <;> simp [mkItem, JVal.get, findField] <;>
    split <;> simp [findField]

theorem mkItem_get_n (s : StateName) (u : Option StateName) (n : Option Int) :
    (mkItem s u n).get "n" = (cleanCount n).map .fint := by
  cases u <;> cases n <;> simp [mkItem, JVal.get, findField, cleanCount] <;>
    split <;> simp [findField]

theorem stateOf_mkItem (s : StateName) (u : Option StateName) (n : Option Int) :
    stateOf (mkItem s u n) = some s := by
  simp [stateOf, mkItem_get_s, JField.asString]

theorem getLast_append_mkItem (h : List JVal) (q : List StateName)
    (s : StateName) (u : Option StateName) (n : Option Int) :
    getLastStateFromHistory ⟨h ++ [mkItem s u n], q⟩ = .ok (some (s, u, cleanCount n)) := by
  have hu : ((mkItem s u n).get "u").map JField.asString = u := by
    rw [mkItem_get_u]; cases u <;> simp [JField.asString]
  have hn : ((mkItem s u n).get "n").map JField.asInt = cleanCount n := by
    rw [mkItem_get_n]; cases cleanCount n <;> simp [JField.asInt]
  simp [getLastStateFromHistory, List.getLast?_concat, mkItem_isObject,
    mkItem_get_s, JField.asString, hu, hn]

theorem getLast_ok_none (d : Doc) (h : getLastStateFromHistory d = .ok none) :
    d.history = [] := by
  unfold getLastStateFromHistory at h
  cases hl : d.history.getLast? with
  | none => exact List.getLast?_eq_none_iff.mp hl
  | some item =>
    rw [hl] at h
    dsimp only at h
    by_cases hobj : item.isObject
    · rw [if_pos hobj] at h
      cases hs : item.get "s" with
      | none => rw [hs] at h; cases h
      | some sv => rw [hs] at h; simp at h
    · rw [if_neg hobj] at h; cases h

theorem getLast_ok_some (d : Doc) (t : StateName) (u0 : Option StateName) (n0 : Option Int)
    (h : getLastStateFromHistory d = .ok (some (t, u0, n0))) :
    ∃ item, d.history.getLast? = some item ∧ stateOf item = some t := by
  unfold getLastStateFromHistory at h
  cases hl : d.history.getLast? with
  | none => rw [hl] at h; cases h
  | some item =>
    rw [hl] at h
    dsimp only at h
    refine ⟨item, rfl, ?_⟩
    by_cases hobj : item.isObject
    · rw [if_pos hobj] at h
      cases hs : item.get "s" with
      | none => rw [hs] at h; cases h
      | some sv =>
        rw [hs] at h
        simp only [Except.ok.injEq, Option.some.injEq, Prod.mk.injEq] at h
        rw [stateOf, hs]
        exact congrArg some h.1
    · rw [if_neg hobj] at h; cases h

theorem historyInvariant_append (d : Doc) (x : JVal)
    (hinv : historyInvariant d)
    (hx : ∀ y ∈ d.history.getLast?, stateOf y ≠ stateOf x) :
    List.Chain' (fun a b => stateOf a ≠ stateOf b) (d.history ++ [x]) := by
  rw [List.chain'_append]
  refine ⟨hinv, List.chain'_singleton x, fun y hy z hz => ?_⟩
  simp only [List.head?_cons, Option.mem_def, Option.some.injEq] at hz
  subst hz
  exact hx y hy

/-!
Claim theorems.
-/

/-- Claim C1: `addScheduledStates` prepends the given batch of state names,
in the order given, to the front of the existing queue, and
`removeLastScheduledState` removes and returns the head of the queue: from
any existing queue, scheduling `[A, B]` and then `[C]` yields the queue
`C :: A :: B :: rest`, and removing then returns `C` and leaves
`A :: B :: rest` (with `rest` empty this is queue `[C, A, B]`, then `C`
and `[A, B]`). -/
theorem addScheduledStates_prepend_fifo (d : Doc) (A B C : StateName) :
    ((addScheduledStates false (addScheduledStates false d [A, B]).2 [C]).2).scheduled
      = C :: A :: B :: d.scheduled ∧
    (removeLastScheduledState false
        (addScheduledStates false (addScheduledStates false d [A, B]).2 [C]).2).1
      = .ok (some C) ∧
    (removeLastScheduledState false
        (addScheduledStates false (addScheduledStates false d [A, B]).2 [C]).2).2.scheduled
      = A :: B :: d.scheduled :=
  ⟨rfl, rfl, rfl⟩

/-- Claim C3: after `addStateToHistory(A)` then `addStateToHistory(B)` on a
fresh stash with `A ≠ B`, `getLastStateFromHistory` returns `B` with no
annotations and no error; after a subsequent `removeLastStateFromHistory`
it returns `A` with no annotations and no error. -/
theorem history_order_and_undo (A B : StateName) (hAB : A ≠ B) :
    getLastStateFromHistory
        (addStateToHistory false (addStateToHistory false NewStash A none none).2 B none none).2
      = .ok (some (B, none, none)) ∧
    getLastStateFromHistory
        (removeLastStateFromHistory false
          (addStateToHistory false (addStateToHistory false NewStash A none none).2
            B none none).2).2
      = .ok (some (A, none, none)) := by
  have h1 : (addStateToHistory false NewStash A none none).2
      = (⟨[mkItem A none none], []⟩ : Doc) := rfl
  have h2 : getLastStateFromHistory (⟨[mkItem A none none], []⟩ : Doc)
      = .ok (some (A, none, none)) :=
    getLast_append_mkItem [] [] A none none
  have h3 : addStateToHistory false (⟨[mkItem A none none], []⟩ : Doc) B none none
      = (.ok (), ⟨[mkItem A none none, mkItem B none none], []⟩) := by
    unfold addStateToHistory
    rw [h2]
    dsimp only
    rw [if_neg hAB]
    rfl
  have h4 : getLastStateFromHistory (⟨[mkItem A none none, mkItem B none none], []⟩ : Doc)
      = .ok (some (B, none, none)) :=
    getLast_append_mkItem [mkItem A none none] [] B none none
  have h5 : (removeLastStateFromHistory false
      (⟨[mkItem A none none, mkItem B none none], []⟩ : Doc)).2
      = (⟨[mkItem A none none], []⟩ : Doc) := rfl
  constructor
  · rw [h1, h3]
    exact h4
  · rw [h1, h3]
    show getLastStateFromHistory (removeLastStateFromHistory false
      (⟨[mkItem A none none, mkItem B none none], []⟩ : Doc)).2 = .ok (some (A, none, none))
    rw [h5]
    exact h2

/-- Claim C3 witness at `A = "A"`, `B = "B"`. -/
theorem history_order_and_undo_witness :
    getLastStateFromHistory
        (addStateToHistory false (addStateToHistory false NewStash "A" none none).2
          "B" none none).2
      = .ok (some ("B", none, none)) ∧
    getLastStateFromHistory
        (removeLastStateFromHistory false
          (addStateToHistory false (addStateToHistory false NewStash "A" none none).2
            "B" none none).2).2
      = .ok (some ("A", none, none)) :=
  history_order_and_undo "A" "B" (by decide)

/-- Claim C4: empty-result conditions are not errors: an empty history reads
back as all-nil with no error, and removing from an empty queue returns nil
with no error and leaves the stash unchanged (hence the queue empty), even
when the underlying store write would fail. -/
theorem empty_results_are_not_errors (d e : Doc) (flag : Bool)
    (hd : d.history = []) (he : e.scheduled = []) :
    getLastStateFromHistory d = .ok none ∧
    removeLastScheduledState flag e = (.ok none, e) := by
  constructor
  · unfold getLastStateFromHistory
    rw [hd]
    rfl
  · unfold removeLastScheduledState
    rw [he]

/-- Claim C4 witness on a fresh stash with a failing store write. -/
theorem empty_results_are_not_errors_witness :
    getLastStateFromHistory NewStash = .ok none ∧
    removeLastScheduledState true NewStash = (.ok none, NewStash) :=
  empty_results_are_not_errors NewStash NewStash true rfl rfl

/-- Claim C9: `removeLastStateFromHistory` on a stash with an empty history
is a no-op success: nil error, document unchanged, and a subsequent
`getLastStateFromHistory` still returns all-nil with no error. -/
theorem remove_on_empty_history_is_noop (flag : Bool) (d : Doc) (hd : d.history = []) :
    removeLastStateFromHistory flag d = (.ok (), d) ∧
    getLastStateFromHistory (removeLastStateFromHistory flag d).2 = .ok none := by
  have h1 : removeLastStateFromHistory flag d = (.ok (), d) := by
    unfold removeLastStateFromHistory
    rw [hd]
  refine ⟨h1, ?_⟩
  rw [h1]
  unfold getLastStateFromHistory
  rw [hd]
  rfl

/-- Claim C9 witness on a fresh stash with a failing store delete. -/
theorem remove_on_empty_history_is_noop_witness :
    removeLastStateFromHistory true NewStash = (.ok (), NewStash) ∧
    getLastStateFromHistory (removeLastStateFromHistory true NewStash).2 = .ok none :=
  remove_on_empty_history_is_noop true NewStash rfl

theorem historyInvariant_addState (flag : Bool) (d : Doc) (s : StateName)
    (u : Option StateName) (n : Option Int) (hinv : historyInvariant d) :
    historyInvariant (addStateToHistory flag d s u n).2 := by
  unfold addStateToHistory
  cases hg : getLastStateFromHistory d with
  | error e => exact hinv
  | ok lastOpt =>
    dsimp only
    cases lastOpt with
    | none =>
      have hd : d.history = [] := getLast_ok_none d hg
      cases flag with
      | true => exact hinv
      | false =>
        show historyInvariant { d with history := d.history ++ [mkItem s u n] }
        unfold historyInvariant
        dsimp only
        rw [hd]
        exact List.chain'_singleton _
    | some triple =>
      obtain ⟨t, u0, n0⟩ := triple
      dsimp only
      by_cases hts : t = s
      · rw [if_pos hts]
        exact hinv
      · rw [if_neg hts]
        cases flag with
        | true => exact hinv
        | false =>
          show historyInvariant { d with history := d.history ++ [mkItem s u n] }
          obtain ⟨item, hitem, hstate⟩ := getLast_ok_some d t u0 n0 hg
          unfold historyInvariant
          dsimp only
          refine historyInvariant_append d (mkItem s u n) hinv ?_
          intro y hy
          rw [hitem] at hy
          simp only [Option.mem_def, Option.some.injEq] at hy
          subst hy
          rw [hstate, stateOf_mkItem]
          simp [hts]

theorem historyInvariant_removeState (flag : Bool) (d : Doc) (hinv : historyInvariant d) :
    historyInvariant (removeLastStateFromHistory flag d).2 := by
  unfold removeLastStateFromHistory
  obtain ⟨hist, sched⟩ := d
  cases hist with
  | nil => exact hinv
  | cons a t =>
    cases flag with
    | true => exact hinv
    | false =>
      show historyInvariant ⟨(a :: t).dropLast, sched⟩
      unfold historyInvariant at hinv ⊢
      exact List.Chain'.prefix hinv ( List.dropLast_prefix _)

theorem historyInvariant_applyOp (flag : Bool) (op : Op) (d : Doc)
    (hinv : historyInvariant d) : historyInvariant (applyOp flag op d) := by
  cases op with
  | addHist s u n => exact historyInvariant_addState flag d s u n hinv
  | removeHist => exact historyInvariant_removeState flag d hinv
  | addSched names =>
    show historyInvariant (addScheduledStates flag d names).2
    unfold addScheduledStates
    cases flag with
    | true => exact hinv
    | false => exact hinv
  | removeSched =>
    show historyInvariant (removeLastScheduledState flag d).2
    unfold removeLastScheduledState
    obtain ⟨hist, sched⟩ := d
    cases sched with
    | nil => exact hinv
    | cons a t =>
      cases flag with
      | true => exact hinv
      | false => exact hinv

/-- Claim C2: re-entering the current state is a silent no-op, so the
history holds no two adjacent entries with the same state: whenever the
decoded tail state equals the state being added, `addStateToHistory`
returns nil error and leaves the stash unchanged (regardless of store
failures, since no write is attempted); adding `A` twice to a fresh stash
leaves exactly one entry, whose recorded state is `A`; and every operation
preserves the adjacent-distinct invariant. -/
theorem history_idempotent_adjacent_distinct
    (A : StateName) (u n2u : Option StateName) (n n2 : Option Int)
    (flag flag2 : Bool) (op : Op) (d d2 : Doc)
    (t : StateName) (tu u3 : Option StateName) (tn n3 : Option Int)
    (hinv : historyInvariant d)
    (htail : getLastStateFromHistory d2 = .ok (some (t, tu, tn))) :
    ((addStateToHistory false NewStash A u n).2.history = [mkItem A u n]) ∧
    (stateOf (mkItem A u n) = some A) ∧
    (addStateToHistory false (addStateToHistory false NewStash A u n).2 A n2u n2
      = (.ok (), (addStateToHistory false NewStash A u n).2)) ∧
    (addStateToHistory flag2 d2 t u3 n3 = (.ok (), d2)) ∧
    historyInvariant (applyOp flag op d) := by
  have h2 : getLastStateFromHistory (⟨[mkItem A u n], []⟩ : Doc)
      = .ok (some (A, u, cleanCount n)) :=
    getLast_append_mkItem [] [] A u n
  refine ⟨rfl, stateOf_mkItem A u n, ?_, ?_, historyInvariant_applyOp flag op d hinv⟩
  · show addStateToHistory false (⟨[mkItem A u n], []⟩ : Doc) A n2u n2
      = (.ok (), (⟨[mkItem A u n], []⟩ : Doc))
    unfold addStateToHistory
    rw [h2]
    dsimp only
    rw [if_pos rfl]
  · unfold addStateToHistory
    rw [htail]
    dsimp only
    rw [if_pos rfl]

/-- Claim C2 witness: adding `"A"` twice on a fresh stash, a no-op repeat on
a one-entry stash, and invariant preservation for one concrete operation. -/
theorem history_idempotent_adjacent_distinct_witness :
    ((addStateToHistory false NewStash "A" none none).2.history = [mkItem "A" none none]) ∧
    (stateOf (mkItem "A" none none) = some "A") ∧
    (addStateToHistory false (addStateToHistory false NewStash "A" none none).2 "A" none none
      = (.ok (), (addStateToHistory false NewStash "A" none none).2)) ∧
    (addStateToHistory true (⟨[mkItem "A" none none], []⟩ : Doc) "A" none none
      = (.ok (), (⟨[mkItem "A" none none], []⟩ : Doc))) ∧
    historyInvariant (applyOp false (.addHist "B" none none) NewStash) :=
  history_idempotent_adjacent_distinct "A" none none none none false false
    (.addHist "B" none none) NewStash (⟨[mkItem "A" none none], []⟩ : Doc)
    "A" none none none none (by decide) (by rfl)

theorem getLast_malformed (d : Doc) (item : JVal)
    (htail : d.history.getLast? = some item)
    (hbad : item.isObject = false ∨ item.get "s" = none) :
    getLastStateFromHistory d = .error .notAnObject ∨
    getLastStateFromHistory d = .error .missingStateField := by
  unfold getLastStateFromHistory
  rw [htail]
  dsimp only
  by_cases hobj : item.isObject
  · rw [if_pos hobj]
    cases hs : item.get "s" with
    | none => right; rfl
    | some sv =>
      exfalso
      rcases hbad with hb | hb
      · rw [hobj] at hb
        cases hb
      · rw [hs] at hb
        cases hb
  · rw [if_neg hobj]
    left
    rfl

/-- Claim C5: when a tail history entry exists but is not a well-formed
object or lacks the required `s` field, `getLastStateFromHistory` fails
with one of the two malformed-history errors (carrying no result values);
it never tolerates such an entry. -/
theorem malformed_tail_is_error (d : Doc) (item : JVal)
    (htail : d.history.getLast? = some item)
    (hbad : item.isObject = false ∨ item.get "s" = none) :
    getLastStateFromHistory d = .error .notAnObject ∨
    getLastStateFromHistory d = .error .missingStateField :=
  getLast_malformed d item htail hbad

/-- Claim C5 witness: a non-object tail entry and an object tail entry
missing the `s` field both read back as errors. -/
theorem malformed_tail_is_error_witness :
    (getLastStateFromHistory (⟨[JVal.vstr "x"], []⟩ : Doc) = .error .notAnObject ∨
     getLastStateFromHistory (⟨[JVal.vstr "x"], []⟩ : Doc) = .error .missingStateField) ∧
    (getLastStateFromHistory (⟨[JVal.vobj [("u", .fstr "y")]], []⟩ : Doc)
        = .error .notAnObject ∨
     getLastStateFromHistory (⟨[JVal.vobj [("u", .fstr "y")]], []⟩ : Doc)
        = .error .missingStateField) :=
  ⟨malformed_tail_is_error (⟨[JVal.vstr "x"], []⟩ : Doc) (JVal.vstr "x") rfl
      (Or.inl rfl),
   malformed_tail_is_error (⟨[JVal.vobj [("u", .fstr "y")]], []⟩ : Doc)
      (JVal.vobj [("u", .fstr "y")]) rfl (Or.inr (by decide))⟩

/-- Claim C10: when the current history tail is malformed (not an object or
missing the `s` field), `addStateToHistory` returns that same
malformed-history error and performs no write: the document is returned
unchanged and no entry is appended. -/
theorem add_on_malformed_tail_propagates (flag : Bool) (d : Doc) (item : JVal)
    (s : StateName) (u : Option StateName) (n : Option Int)
    (htail : d.history.getLast? = some item)
    (hbad : item.isObject = false ∨ item.get "s" = none) :
    ∃ e, getLastStateFromHistory d = .error e ∧
      addStateToHistory flag d s u n = (.error e, d) := by
  have herr : ∃ e, getLastStateFromHistory d = .error e := by
    rcases getLast_malformed d item htail hbad with h | h
    · exact ⟨_, h⟩
    · exact ⟨_, h⟩
  obtain ⟨e, he⟩ := herr
  refine ⟨e, he, ?_⟩
  unfold addStateToHistory
  rw [he]

/-- Claim C10 witness: adding on top of a non-object tail entry, with a
store that would accept the write, propagates the malformed-history error
and leaves the document unchanged. -/
theorem add_on_malformed_tail_propagates_witness :
    ∃ e, getLastStateFromHistory (⟨[JVal.vint 7], ["Q"]⟩ : Doc) = .error e ∧
      addStateToHistory false (⟨[JVal.vint 7], ["Q"]⟩ : Doc) "A" none none
        = (.error e, (⟨[JVal.vint 7], ["Q"]⟩ : Doc)) :=
  add_on_malformed_tail_propagates false (⟨[JVal.vint 7], ["Q"]⟩ : Doc)
    (JVal.vint 7) "A" none none rfl (Or.inl rfl)

/-- Claim C6: sub-flow scheduling metadata is recorded conditionally and
round-trips: whenever `addStateToHistory` appends a new entry, it succeeds,
the entry stores `u` exactly when provided and `n` exactly when provided
and strictly positive, and `getLastStateFromHistory` then returns the state
together with `u` and the stored count (`none` when the count was absent or
not strictly positive). -/
theorem scheduling_metadata_roundtrip (d : Doc) (s : StateName)
    (u : Option StateName) (n : Option Int)
    (happ : willAppendB d s = true) :
    (addStateToHistory false d s u n).1 = .ok () ∧
    (addStateToHistory false d s u n).2.history = d.history ++ [mkItem s u n] ∧
    (mkItem s u n).get "u" = u.map .fstr ∧
    (mkItem s u n).get "n" = (cleanCount n).map .fint ∧
    getLastStateFromHistory (addStateToHistory false d s u n).2
      = .ok (some (s, u, cleanCount n)) := by
  have hadd : addStateToHistory false d s u n
      = (.ok (), { d with history := d.history ++ [mkItem s u n] }) := by
    unfold willAppendB at happ
    unfold addStateToHistory
    cases hg : getLastStateFromHistory d with
    | error e =>
      rw [hg] at happ
      cases happ
    | ok lastOpt =>
      rw [hg] at happ
      cases lastOpt with
      | none => rfl
      | some triple =>
        obtain ⟨t, u0, n0⟩ := triple
        dsimp only at happ ⊢
        rw [if_neg (of_decide_eq_true happ)]
        rfl
  refine ⟨by rw [hadd], by rw [hadd], mkItem_get_u s u n, mkItem_get_n s u n, ?_⟩
  rw [hadd]
  exact getLast_append_mkItem d.history d.scheduled s u n

/-- Claim C6 witness: `addStateToHistory("A", u="X", n=2)` reads back as
`("A", "X", 2)` and a zero count reads back as a nil count. -/
theorem scheduling_metadata_roundtrip_witness :
    getLastStateFromHistory (addStateToHistory false NewStash "A" (some "X") (some 2)).2
      = .ok (some ("A", some "X", some 2)) ∧
    getLastStateFromHistory (addStateToHistory false NewStash "B" none (some 0)).2
      = .ok (some ("B", none, none)) :=
  ⟨(scheduling_metadata_roundtrip NewStash "A" (some "X") (some 2) rfl).2.2.2.2,
   (scheduling_metadata_roundtrip NewStash "B" none (some 0) rfl).2.2.2.2⟩

/-- Claim C8: atomicity on error: each mutating operation performs at most
one write to the underlying document, so whenever it returns a non-nil
error the stash document is left unchanged — for any store-failure outcome
and any document. -/
theorem mutating_ops_unchanged_on_error (flag : Bool) (d : Doc) (s : StateName)
    (u : Option StateName) (n : Option Int) (names : List StateName)
    (e1 e2 e3 e4 : StashError) :
    ((addStateToHistory flag d s u n).1 = .error e1 →
      (addStateToHistory flag d s u n).2 = d) ∧
    ((removeLastStateFromHistory flag d).1 = .error e2 →
      (removeLastStateFromHistory flag d).2 = d) ∧
    ((addScheduledStates flag d names).1 = .error e3 →
      (addScheduledStates flag d names).2 = d) ∧
    ((removeLastScheduledState flag d).1 = .error e4 →
      (removeLastScheduledState flag d).2 = d) := by
  obtain ⟨hist, sched⟩ := d
  refine ⟨?_, ?_, ?_, ?_⟩
  · intro he
    unfold addStateToHistory at he ⊢
    cases hg : getLastStateFromHistory ⟨hist, sched⟩ with
    | error e0 => rfl
    | ok lastOpt =>
      rw [hg] at he
      dsimp only at he ⊢
      cases lastOpt with
      | none =>
        cases flag with
        | true => rfl
        | false => exact Except.noConfusion he
      | some triple =>
        obtain ⟨t, tu, tn⟩ := triple
        dsimp only at he ⊢
        by_cases hts : t = s
        · rw [if_pos hts]
        · rw [if_neg hts] at he ⊢
          cases flag with
          | true => rfl
          | false => exact Except.noConfusion he
  · intro he
    cases hist with
    | nil => rfl
    | cons a tl =>
      cases flag with
      | true => rfl
      | false => exact Except.noConfusion he
  · intro he
    cases flag with
    | true => rfl
    | false => exact Except.noConfusion he
  · intro he
    cases sched with
    | nil => rfl
    | cons a tl =>
      cases flag with
      | true => rfl
      | false => exact Except.noConfusion he

/-- Claim C8 witness: with a failing store write, each of the four mutating
operations errors on a concrete stash and leaves its document unchanged. -/
theorem mutating_ops_unchanged_on_error_witness :
    (addStateToHistory true (⟨[mkItem "A" none none], ["B"]⟩ : Doc) "C" none none).2
      = (⟨[mkItem "A" none none], ["B"]⟩ : Doc) ∧
    (removeLastStateFromHistory true (⟨[mkItem "A" none none], ["B"]⟩ : Doc)).2
      = (⟨[mkItem "A" none none], ["B"]⟩ : Doc) ∧
    (addScheduledStates true (⟨[mkItem "A" none none], ["B"]⟩ : Doc) ["X"]).2
      = (⟨[mkItem "A" none none], ["B"]⟩ : Doc) ∧
    (removeLastScheduledState true (⟨[mkItem "A" none none], ["B"]⟩ : Doc)).2
      = (⟨[mkItem "A" none none], ["B"]⟩ : Doc) := by
  have h := mutating_ops_unchanged_on_error true (⟨[mkItem "A" none none], ["B"]⟩ : Doc)
    "C" none none ["X"] .setStateHistoryFailed .deleteStateHistoryFailed
    .setScheduledStatesFailed .stashScheduledStatesFailed
  exact ⟨h.1 rfl, h.2.1 rfl, h.2.2.1 rfl, h.2.2.2 rfl⟩

/-- Claim C7: serialization round-trip: applying any sequence of history and
queue mutations to a stash, serializing it to a string and reconstructing a
new stash from that string succeeds and yields a stash on which
`getLastStateFromHistory` returns the same result and draining the queue
returns the same sequence of state names. -/
theorem serialization_roundtrip (d0 : Doc) (ops : List Op) :
    ∃ d2, NewStashFromString (stashToString (applyOps ops d0)) = some d2 ∧
      getLastStateFromHistory d2 = getLastStateFromHistory (applyOps ops d0) ∧
      drainQueue d2 = drainQueue (applyOps ops d0) :=
  ⟨applyOps ops d0, newStashFromString_stashToString _, rfl, rfl⟩
